import Mathlib

/-!
Verification of the HPO4DL core: the configuration manager
(src/hpo4dl/configuration_manager/configuration_manager.py) and the
graybox trial wrapper (src/hpo4dl/graybox_wrapper/graybox_wrapper.py),
shallowly embedded in Lean. State-mutating Python methods become
functions on explicit state records; exceptions become Except results;
the ConfigSpace sampler becomes an explicit stream of configurations;
pandas DataFrame construction and column selection is modelled by its
observable behaviour (column set = union of row keys, selection of a
missing column raises KeyError).
-/

/-- A hyperparameter value: numeric or categorical scalar. -/
inductive HVal where
  | i : Int → HVal
  | s : String → HVal
  | b : Bool → HVal
deriving DecidableEq, Repr

/-- A configuration: a Python dict from hyperparameter name to value,
as an ordered association list with distinct keys. -/
abbrev Config := List (String × HVal)

/-- Lexicographic order on strings by code point, the order Python
uses to compare the name components when sorting dict items. -/
def str_le (a b : String) : Bool :=
  a.data.map Char.toNat ≤ b.data.map Char.toNat

/-- Insertion of one (name, value) pair into a key-sorted list.
Helper for the canonical sorted tuple. -/
def insort (p : String × HVal) : List (String × HVal) → List (String × HVal)
  | [] => [p]
  | q :: t => if str_le p.1 q.1 then p :: q :: t else q :: insort p t

/-- Embeds the local expression config_tuple = tuple(sorted(config.items()))
used at configuration_manager.py lines 106 and 122: the canonical
deduplication key of a configuration. For dicts (distinct keys) sorting
by key alone agrees with Python tuple ordering. -/
def config_tuple (c : Config) : Config := c.foldr insort []

/-- Adding an element to a Python set, modelled on duplicate-free lists:
set.add is a no-op when the element is already present. -/
def set_insert (t : Config) (s : List Config) : List Config :=
  if t ∈ s then s else s ++ [t]

/-- State of ConfigurationManager (configuration_manager.py):
the fields touched by the claims, with the ConfigSpace sampler
modelled as a stream indexed by a sample counter. -/
structure Manager where
  configuration_names : List String
  sampler : Nat → Config
  sample_idx : Nat
  configurations : List Config
  configurations_set : List Config
  configurations_df : List (List (Option HVal))
  all_unique_configurations_added : Bool

/-- Embeds generate_configurations (lines 79-84): draws the requested
number of configurations from the sampler stream. -/
def generate_configurations (m : Manager) (n : Nat) : Manager × List Config :=
  ({ m with sample_idx := m.sample_idx + n },
   (List.range n).map (fun i => m.sampler (m.sample_idx + i)))

/-- Embeds the per-candidate body of the for-loop at lines 105-110:
accept the candidate when its canonical tuple is fresh or the
duplicate-tolerant flag is set. -/
def accept_one (mk : Manager × Nat) (c : Config) : Manager × Nat :=
  let m := mk.1
  let t := config_tuple c
  if t ∉ m.configurations_set ∨ m.all_unique_configurations_added = true then
    ({ m with configurations := m.configurations ++ [c],
              configurations_set := set_insert t m.configurations_set }, mk.2 + 1)
  else mk

/-- Embeds the whole for-loop at lines 105-110 over one sampled batch. -/
def accept_round (m : Manager) (cfgs : List Config) (num_added : Nat) : Manager × Nat :=
  cfgs.foldl accept_one (m, num_added)

/-- Embeds the while-loop at lines 99-111. The fuel argument is the
number of tries still allowed (max_try_limit minus num_tries); the
returned Nat × Nat is (num_added, tries still unused at exit), so the
Python condition num_tries == max_try_limit at line 115 is
"tries still unused = 0". -/
def add_loop (m : Manager) (target num_added : Nat) : Nat → Manager × Nat × Nat
  | 0 => (m, num_added, 0)
  | Nat.succ t =>
    if num_added < target then
      let g := generate_configurations m (target - num_added)
      let r := accept_round g.1 g.2 num_added
      add_loop r.1 target r.2 t
    else (m, num_added, Nat.succ t)

/-- Column set of pd.DataFrame(list of dicts): the union of the row
keys (order of first appearance; only membership matters here). -/
def df_columns (configs : List Config) : List String :=
  (configs.map (fun c => c.map Prod.fst)).flatten.dedup

/-- Embeds lines 112-113 (and 125-126): rebuild the DataFrame from the
pool and select the canonical column order. Selecting a column absent
from the DataFrame raises a pandas KeyError; in particular an empty
pool yields a DataFrame with no columns at all. -/
def rebuild_df (m : Manager) : Except String Manager :=
  let cols := df_columns m.configurations
  if m.configuration_names.all (fun k => cols.contains k) then
    Except.ok { m with
      configurations_df :=
        m.configurations.map (fun c => m.configuration_names.map (fun k => c.lookup k)) }
  else
    Except.error "KeyError"

/-- Embeds add_configurations (lines 86-117). The first argument is
recursion-depth fuel for the self-call at line 117 (the Python
recursion); running out of fuel returns an error, and the theorems show
fuel 2 always suffices, which is the termination argument. -/
def add_configurations : Nat → Manager → Nat → Nat → Except String Manager
  | 0, _, _, _ => Except.error "RecursionError"
  | Nat.succ fuel, m, num_configurations, max_try_limit =>
    let r := add_loop m num_configurations 0 max_try_limit
    match rebuild_df r.1 with
    | Except.error e => Except.error e
    | Except.ok m2 =>
      if r.2.2 = 0 then
        add_configurations fuel
          { m2 with all_unique_configurations_added := true }
          (num_configurations - r.2.1) 100
      else Except.ok m2

/-- Embeds set_configuration (lines 119-126): append the given
configuration unconditionally, record its canonical tuple in the dedup
set, and rebuild the DataFrame. -/
def set_configuration (m : Manager) (configuration : Config) : Except String Manager :=
  rebuild_df { m with
    configurations := m.configurations ++ [configuration],
    configurations_set := set_insert (config_tuple configuration) m.configurations_set }

/-- A freshly constructed manager before the initial
add_configurations call in the constructor (lines 26-32). -/
def mk_manager (names : List String) (sampler : Nat → Config) : Manager :=
  { configuration_names := names
    sampler := sampler
    sample_idx := 0
    configurations := []
    configurations_set := []
    configurations_df := []
    all_unique_configurations_added := false }

/-- Python list subscript semantics: a negative index counts from the
end; anything outside the range raises IndexError. -/
def python_get {α : Type} (l : List α) (i : Int) : Except String α :=
  let j : Int := if i < 0 then (l.length : Int) + i else i
  if 0 ≤ j then
    match l.get? j.toNat with
    | some a => Except.ok a
    | none => Except.error "IndexError"
  else Except.error "IndexError"

/-- Embeds get_configuration (lines 74-77): a bare Python list
subscript with no bounds or sign check of its own. -/
def get_configuration (m : Manager) (configuration_id : Int) : Except String Config :=
  python_get m.configurations configuration_id

/-- A value occurring in a result record returned or produced by the
trial wrapper: the epoch and metric numbers of the objective, plus the
enrichment values (configuration id, the configuration itself, and the
per-epoch wall-clock time, a real/float modelled as a rational). -/
inductive RVal where
  | i : Int → RVal
  | q : ℚ → RVal
  | s : String → RVal
  | cfg : Config → RVal
deriving DecidableEq, Repr

/-- A result record: a Python dict with string keys. -/
abbrev Record := List (String × RVal)

/-- Python dict membership test (a "key in d" expression). -/
def has_key (r : Record) (k : String) : Bool :=
  r.any (fun p => p.1 == k)

/-- Python dict write d[k] = v on an association list with unique
keys: overwrite in place if present, append otherwise. This is also
the effect of the key on a dict display such as followed by update. -/
def dict_set {α β : Type} [DecidableEq α] (l : List (α × β)) (k : α) (v : β) :
    List (α × β) :=
  if l.any (fun p => p.1 = k) then
    l.map (fun p => if p.1 = k then (k, v) else p)
  else l ++ [(k, v)]

/-- Python dict read d.get-style lookup on an association list. -/
def alist_get {α β : Type} [DecidableEq α] : List (α × β) → α → Option β
  | [], _ => none
  | p :: t, k => if p.1 = k then some p.2 else alist_get t k

/-- Embeds the dict display at graybox_wrapper.py lines 89-94:
the objective record enriched with configuration_id, configuration and
per-epoch time. -/
def enrich (entry : Record) (configuration_id : Nat) (configuration : Config)
    (single_epoch_execution_time : ℚ) : Record :=
  dict_set (dict_set (dict_set entry
    "configuration_id" (RVal.i configuration_id))
    "configuration" (RVal.cfg configuration))
    "time" (RVal.q single_epoch_execution_time)

/-- The ConfigurationInfo dataclass (hpo4dl/utils, used at lines
59-60): carries the configuration id and the configuration. -/
structure ConfigurationInfo where
  configuration_id : Nat
  configuration : Config
deriving DecidableEq, Repr

/-- The objective function may return a single record or a list of
records (graybox_wrapper.py lines 80-81 normalize the former). -/
abbrev ObjResult := Record ⊕ List Record

/-- Embeds the isinstance normalization at lines 80-81. -/
def normalize_result : ObjResult → List Record
  | Sum.inl r => [r]
  | Sum.inr l => l

/-- State of GrayBoxWrapper (graybox_wrapper.py): the wall clock is a
stream of perf_counter readings consumed by an index, the filesystem
is the list of existing directory paths (each a list of components),
and obj_calls counts invocations of the objective function. -/
structure Wrapper where
  checkpoint_path : List String
  previous_fidelities : List (Nat × Nat)
  trial_results : List ((Nat × Nat) × List Record)
  fs : List (List String)
  clock_idx : Nat
  obj_calls : Nat

/-- Embeds get_checkpoint_path (lines 114-123):
checkpoint_path / trial_{configuration_id}. -/
def get_checkpoint_path (w : Wrapper) (configuration_id : Nat) : List String :=
  w.checkpoint_path ++ ["trial_" ++ toString configuration_id]

/-- Path.mkdir(parents=True, exist_ok=True): create the directory and
every missing ancestor, never failing. -/
def mkdir_parents (fs : List (List String)) (p : List String) : List (List String) :=
  ((List.range p.length).map (fun i => p.take (i + 1))).foldl
    (fun f q => if q ∈ f then f else f ++ [q]) fs

/-- str(path): the string handed to the objective function. -/
def path_str (p : List String) : String := String.intercalate "/" p

/-- Embeds verify_configuration_results (lines 102-112): checks every
record for an epoch key then a metric key, raising at the first
missing one. -/
def verify_configuration_results : List Record → Except String Unit
  | [] => Except.ok ()
  | r :: t =>
    if !has_key r "epoch" then
      Except.error "epoch entry missing from objective function results."
    else if !has_key r "metric" then
      Except.error "metric entry missing from objective function results."
    else verify_configuration_results t

/-- Embeds the method _run (lines 49-100). The pair result carries the
normal return value or the raised exception together with the state of
the wrapper object at that point, since Python keeps mutations made
before a raise. -/
def run (obj : Config → Nat → Nat → String → ObjResult) (clock : Nat → ℚ)
    (w : Wrapper) (configuration_info : ConfigurationInfo) (epoch : Nat) :
    Except String (List Record) × Wrapper :=
  let configuration_id := configuration_info.configuration_id
  let configuration := configuration_info.configuration
  match alist_get w.trial_results (configuration_id, epoch) with
  | some r => (Except.ok r, w)
  | none =>
    let cp := get_checkpoint_path w configuration_id
    let w1 := { w with fs := mkdir_parents w.fs cp.dropLast }
    let previous_epoch := (alist_get w1.previous_fidelities configuration_id).getD 0
    let start_time := clock w1.clock_idx
    let res := obj configuration epoch previous_epoch (path_str cp)
    let end_time := clock (w1.clock_idx + 1)
    let w2 := { w1 with clock_idx := w1.clock_idx + 2, obj_calls := w1.obj_calls + 1 }
    let execution_time := end_time - start_time
    let rs := normalize_result res
    match verify_configuration_results rs with
    | Except.error e => (Except.error e, w2)
    | Except.ok _ =>
      if rs.length = 0 then (Except.error "ZeroDivisionError", w2)
      else
        let single_epoch_execution_time := execution_time / (rs.length : ℚ)
        let enriched := rs.map
          (fun entry => enrich entry configuration_id configuration single_epoch_execution_time)
        (Except.ok enriched,
         { w2 with
            previous_fidelities := dict_set w2.previous_fidelities configuration_id epoch,
            trial_results := dict_set w2.trial_results (configuration_id, epoch) enriched })

/-- The loop body sequencing of start_trial (lines 42-47): process the
zipped requests in order, concatenating results, stopping at the first
raised exception. -/
def start_trial_go (obj : Config → Nat → Nat → String → ObjResult) (clock : Nat → ℚ) :
    List (ConfigurationInfo × Nat) → List Record → Wrapper →
    Except String (List Record) × Wrapper
  | [], acc, w => (Except.ok acc, w)
  | (ci, e) :: t, acc, w =>
    match run obj clock w ci e with
    | (Except.ok rs, w2) => start_trial_go obj clock t (acc ++ rs) w2
    | (Except.error err, w2) => (Except.error err, w2)

/-- Embeds start_trial (lines 28-47): zip silently truncates to the
shorter of the two argument lists. -/
def start_trial (obj : Config → Nat → Nat → String → ObjResult) (clock : Nat → ℚ)
    (w : Wrapper) (configuration_info : List ConfigurationInfo) (epoch : List Nat) :
    Except String (List Record) × Wrapper :=
  start_trial_go obj clock (configuration_info.zip epoch) [] w

/-- shutil.rmtree: removes the directory tree rooted at the path;
raises FileNotFoundError when the path does not exist. -/
def shutil_rmtree (p : List String) (w : Wrapper) : Except String Wrapper :=
  if p ∈ w.fs then
    Except.ok { w with fs := w.fs.filter (fun q => !(p.isPrefixOf q)) }
  else Except.error "FileNotFoundError"

/-- Embeds close (lines 125-129): remove the checkpoint root tree,
guarded by an existence check. -/
def wrapper_close (w : Wrapper) : Except String Wrapper :=
  if w.checkpoint_path ∈ w.fs then shutil_rmtree w.checkpoint_path w
  else Except.ok w

/-- The previous-epoch lookup of lines 68-71: the fidelity ledger
entry of the configuration, defaulting to 0 when absent. -/
def lookup_previous_epoch (w : Wrapper) (configuration_id : Nat) : Nat :=
  (alist_get w.previous_fidelities configuration_id).getD 0

/-- A wrapper as built by the constructor (graybox_wrapper.py lines
17-26): empty ledger and cache, parent of the checkpoint root created. -/
def mk_wrapper (root : List String) : Wrapper :=
  { checkpoint_path := root
    previous_fidelities := []
    trial_results := []
    fs := mkdir_parents [] root.dropLast
    clock_idx := 0
    obj_calls := 0 }

/-- A configuration over two boolean hyperparameters p and q. -/
def combo (x y : Bool) : Config := [("p", HVal.b x), ("q", HVal.b y)]

/-- A sampler for a search space with exactly 4 distinct
configurations (2 boolean hyperparameters), cycling through them. -/
def cyclic_sampler (i : Nat) : Config :=
  [combo false false, combo false true, combo true false, combo true true].getD (i % 4) []

/-- A one-hyperparameter configuration with the given integer value. -/
def xcfg (v : Int) : Config := [("x", HVal.i v)]

/-- A sampler that yields the same configuration at draws 0 and 1 and
a second configuration from draw 2 on. -/
def two_phase_sampler (i : Nat) : Config := if i ≤ 1 then xcfg 0 else xcfg 1

/-- A well-formed objective function: one record per call carrying the
target epoch and a metric. -/
def demo_obj : Config → Nat → Nat → String → ObjResult :=
  fun _ epoch _ _ => Sum.inr [[("epoch", RVal.i epoch), ("metric", RVal.q (1/2))]]

/-- A malformed objective function: its record lacks the metric key. -/
def demo_bad_obj : Config → Nat → Nat → String → ObjResult :=
  fun _ epoch _ _ => Sum.inl [("epoch", RVal.i epoch)]

/-- A deterministic wall clock for the concrete trials. -/
def demo_clock (i : Nat) : ℚ := 2 * i

/-- Concrete request: configuration 0 of the demo pool. -/
def demo_ci : ConfigurationInfo :=
  { configuration_id := 0, configuration := xcfg 0 }

/-- Concrete wrapper state used by the witnesses. -/
def demo_wrapper : Wrapper := mk_wrapper ["tmp", "hpo4dl"]

/-- A manager whose pool holds two fixed configurations, for the
indexing witness. -/
def two_cfg_manager : Manager :=
  { mk_manager ["x"] (fun _ => xcfg 0) with configurations := [xcfg 0, xcfg 1] }

/-- The record list a cache-miss run obtains from the objective
function after normalization (graybox_wrapper.py lines 74-81). -/
def run_result_list (obj : Config → Nat → Nat → String → ObjResult) (w : Wrapper)
    (ci : ConfigurationInfo) (e : Nat) : List Record :=
  normalize_result (obj ci.configuration e
    ((alist_get w.previous_fidelities ci.configuration_id).getD 0)
    (path_str (get_checkpoint_path w ci.configuration_id)))

/-- The wrapper state right after the filesystem, clock and
invocation-count effects of a cache-miss run, before any result is
stored. -/
def run_touched (w : Wrapper) (configuration_id : Nat) : Wrapper :=
  { w with fs := mkdir_parents w.fs (get_checkpoint_path w configuration_id).dropLast,
           clock_idx := w.clock_idx + 2, obj_calls := w.obj_calls + 1 }

/-- The enriched records a successful cache-miss run returns. -/
def run_records (obj : Config → Nat → Nat → String → ObjResult) (clock : Nat → ℚ)
    (w : Wrapper) (ci : ConfigurationInfo) (e : Nat) : List Record :=
  (run_result_list obj w ci e).map
    (fun entry => enrich entry ci.configuration_id ci.configuration
      ((clock (w.clock_idx + 1) - clock w.clock_idx) /
        ((run_result_list obj w ci e).length : ℚ)))

/-- The wrapper state after a successful cache-miss run: ledger and
cache updated on top of the touched state. -/
def run_done (obj : Config → Nat → Nat → String → ObjResult) (clock : Nat → ℚ)
    (w : Wrapper) (ci : ConfigurationInfo) (e : Nat) : Wrapper :=
  { run_touched w ci.configuration_id with
      previous_fidelities := dict_set w.previous_fidelities ci.configuration_id e,
      trial_results :=
        dict_set w.trial_results (ci.configuration_id, e) (run_records obj clock w ci e) }

/-- The dedup invariant of the configuration pool: no two positions
hold configurations with the same canonical tuple, and every pool
member has its canonical tuple recorded in the dedup set. -/
def dedup_inv (m : Manager) : Prop :=
  (m.configurations.map config_tuple).Nodup ∧
  ∀ c ∈ m.configurations, config_tuple c ∈ m.configurations_set

/-! Helper lemmas. -/

theorem zip_take_min_eq {α β : Type} :
    ∀ (l1 : List α) (l2 : List β),
      (l1.take (min l1.length l2.length)).zip (l2.take (min l1.length l2.length)) = l1.zip l2
  | [], l2 => by simp
  | a :: t1, [] => by simp
  | a :: t1, b :: t2 => by
    simp only [List.length_cons, Nat.succ_min_succ, List.take_succ_cons, List.zip_cons_cons]
    rw [zip_take_min_eq t1 t2]

/-- C3: the claim says a count of 0 is a no-op that raises no error on
every manager state including an empty pool; in the code the
unconditional DataFrame rebuild then selects the hyperparameter
columns from an empty DataFrame, which raises a pandas KeyError, so
even the constructor with its default num_configurations = 0 raises.
This theorem evaluates the code at that failing input. -/
theorem add_zero_on_empty_pool_keyerror :
    add_configurations 2 (mk_manager ["x"] (fun _ => xcfg 0)) 0 100 =
      Except.error "KeyError" := rfl

theorem wrapper_close_of_mem (w : Wrapper) (h : w.checkpoint_path ∈ w.fs) :
    wrapper_close w =
      Except.ok { w with fs := w.fs.filter (fun q => !(w.checkpoint_path.isPrefixOf q)) } := by
  simp only [wrapper_close, shutil_rmtree, if_pos h]

theorem wrapper_close_of_not_mem (w : Wrapper) (h : w.checkpoint_path ∉ w.fs) :
    wrapper_close w = Except.ok w := by
  simp only [wrapper_close, if_neg h]

/-- C8: close deletes the whole checkpoint root tree and a second
close after it succeeds as well, because the existence guard skips the
rmtree call whose unguarded form would raise FileNotFoundError. -/
theorem close_idempotent (w : Wrapper) :
    ∃ w1, wrapper_close w = Except.ok w1 ∧ wrapper_close w1 = Except.ok w1 ∧
      (w.checkpoint_path ∈ w.fs →
        ∀ q ∈ w1.fs, w.checkpoint_path.isPrefixOf q = false) := by
  by_cases h : w.checkpoint_path ∈ w.fs
  · refine ⟨{ w with fs := w.fs.filter (fun q => !(w.checkpoint_path.isPrefixOf q)) },
      wrapper_close_of_mem w h, ?_, ?_⟩
    · apply wrapper_close_of_not_mem
      intro hmem
      have h2 := (List.mem_filter.1 hmem).2
      have h3 : w.checkpoint_path.isPrefixOf w.checkpoint_path = true := by
        simp [List.isPrefixOf_iff_prefix]
      simp only [h3] at h2
      cases h2
    · intro _ q hq
      have h2 := (List.mem_filter.1 hq).2
      simpa using h2
  · exact ⟨w, wrapper_close_of_not_mem w h, wrapper_close_of_not_mem w h,
      fun hc => absurd hc h⟩

/-- C9: start_trial zips the configuration list with the epoch list,
so with lists of different lengths it behaves exactly as if called on
the two lists truncated to the shorter length: same returned records,
same final cache, ledger, filesystem and counters, and no error from
the mismatch itself. -/
theorem start_trial_truncates_to_min (obj : Config → Nat → Nat → String → ObjResult)
    (clock : Nat → ℚ) (w : Wrapper) (cis : List ConfigurationInfo) (es : List Nat) :
    start_trial obj clock w cis es =
      start_trial obj clock w (cis.take (min cis.length es.length))
        (es.take (min cis.length es.length)) := by
  unfold start_trial
  rw [zip_take_min_eq cis es]

/-- C10: get_configuration applies a bare Python list subscript: a
negative id between -n and -1 selects position n + id (so -1 is the
most recently inserted configuration), and an id outside the range
from -n to n - 1 raises IndexError. -/
theorem get_configuration_index_behaviour (m : Manager) (i : Int) :
    (-(m.configurations.length : Int) ≤ i → i < 0 →
      ∃ c, get_configuration m i = Except.ok c ∧
        m.configurations.get? ((m.configurations.length : Int) + i).toNat = some c) ∧
    (i < -(m.configurations.length : Int) ∨ (m.configurations.length : Int) ≤ i →
      get_configuration m i = Except.error "IndexError") := by
  constructor
  · intro h1 h2
    have hj0 : (0 : Int) ≤ (m.configurations.length : Int) + i := by omega
    have hjlt : ((m.configurations.length : Int) + i).toNat < m.configurations.length := by
      omega
    obtain ⟨c, hc⟩ : ∃ c,
        m.configurations.get? ((m.configurations.length : Int) + i).toNat = some c :=
      ⟨m.configurations.get ⟨_, hjlt⟩, List.get?_eq_get hjlt⟩
    refine ⟨c, ?_, hc⟩
    simp only [get_configuration, python_get, if_pos h2, if_pos hj0, hc]
  · intro h
    rcases h with h | h
    · have h2 : i < 0 := by omega
      have hj0 : ¬ (0 : Int) ≤ (m.configurations.length : Int) + i := by omega
      simp only [get_configuration, python_get, if_pos h2, if_neg hj0]
    · have h2 : ¬ i < 0 := by omega
      have hj0 : (0 : Int) ≤ i := by omega
      have hnone : m.configurations.get? i.toNat = none := by
        rw [List.get?_eq_none]
        omega
      simp only [get_configuration, python_get, if_neg h2, if_pos hj0, hnone]

/-- Witness for C10 at a pool of two configurations: id -1 returns the
most recent entry and id 2 raises IndexError. -/
theorem get_configuration_index_behaviour_witness :
    (∃ c, get_configuration two_cfg_manager (-1) = Except.ok c ∧
      two_cfg_manager.configurations.get? (((2 : Nat) : Int) + (-1)).toNat = some c) ∧
    get_configuration two_cfg_manager 2 = Except.error "IndexError" :=
  ⟨(get_configuration_index_behaviour two_cfg_manager (-1)).1 (by decide) (by decide),
   (get_configuration_index_behaviour two_cfg_manager 2).2 (by decide)⟩

/-- C1 counterexample: a reachable pool state with two distinct
configuration ids mapping to the same canonical tuple while the
duplicate-tolerant flag is still false. One configuration is added by
sampling, then set_configuration of the same configuration appends it
again without any duplicate check. -/
theorem set_configuration_creates_duplicate :
    ∃ m1 m2,
      add_configurations 2 (mk_manager ["x"] (fun _ => xcfg 0)) 1 100 = Except.ok m1 ∧
      set_configuration m1 (xcfg 0) = Except.ok m2 ∧
      m2.all_unique_configurations_added = false ∧
      m2.configurations.length = 2 ∧
      config_tuple (m2.configurations.getD 0 []) =
        config_tuple (m2.configurations.getD 1 []) := by
  exact ⟨_, _, rfl, rfl, rfl, rfl, rfl⟩

/-- C2 counterexample: a call of add_configurations with
max_try_limit = 2 that fills its full request (the pool grows by the
one requested configuration) on its second and last round, yet sets
the duplicate-tolerant flag, refuting the only-if direction of the
claimed equivalence. -/
theorem flag_set_despite_filled_request :
    ∃ m1 m2,
      add_configurations 2 (mk_manager ["x"] two_phase_sampler) 1 100 = Except.ok m1 ∧
      m1.all_unique_configurations_added = false ∧
      add_configurations 2 m1 1 2 = Except.ok m2 ∧
      m2.configurations.length = m1.configurations.length + 1 ∧
      m2.all_unique_configurations_added = true := by
  exact ⟨_, _, rfl, rfl, rfl, rfl, rfl⟩

theorem accept_one_flag (mk : Manager × Nat) (c : Config) :
    (accept_one mk c).1.all_unique_configurations_added =
      mk.1.all_unique_configurations_added := by
  simp only [accept_one]
  split <;> rfl

theorem accept_round_flag :
    ∀ (cfgs : List Config) (m : Manager) (k : Nat),
      (accept_round m cfgs k).1.all_unique_configurations_added =
        m.all_unique_configurations_added
  | [], m, k => rfl
  | c :: t, m, k => by
    have hstep : accept_round m (c :: t) k =
        accept_round (accept_one (m, k) c).1 t (accept_one (m, k) c).2 := rfl
    rw [hstep, accept_round_flag t _ _, accept_one_flag]

theorem add_loop_flag :
    ∀ (t : Nat) (m : Manager) (target k : Nat),
      (add_loop m target k t).1.all_unique_configurations_added =
        m.all_unique_configurations_added
  | 0, m, target, k => rfl
  | Nat.succ t, m, target, k => by
    rw [add_loop]
    by_cases hk : k < target
    · rw [if_pos hk, add_loop_flag t _ _ _, accept_round_flag]
      rfl
    · rw [if_neg hk]

theorem rebuild_df_ok_fields (m m2 : Manager) (h : rebuild_df m = Except.ok m2) :
    m2.configurations = m.configurations ∧
    m2.configurations_set = m.configurations_set ∧
    m2.all_unique_configurations_added = m.all_unique_configurations_added ∧
    m2.configuration_names = m.configuration_names ∧
    m2.sampler = m.sampler ∧
    m2.sample_idx = m.sample_idx := by
  simp only [rebuild_df] at h
  split at h
  · cases h
    exact ⟨rfl, rfl, rfl, rfl, rfl, rfl⟩
  · cases h

theorem add_configurations_flag_monotone (fuel : Nat) :
    ∀ (m : Manager) (n limit : Nat) (m' : Manager),
      add_configurations fuel m n limit = Except.ok m' →
      m.all_unique_configurations_added = true →
      m'.all_unique_configurations_added = true := by
  induction fuel with
  | zero =>
    intro m n limit m' h
    cases h
  | succ fuel ih =>
    intro m n limit m' h hf
    simp only [add_configurations] at h
    rcases hdf : rebuild_df (add_loop m n 0 limit).1 with e | m2 <;> simp only [hdf] at h
    · cases h
    · by_cases ht : (add_loop m n 0 limit).2.2 = 0
      · rw [if_pos ht] at h
        exact ih _ _ _ _ h rfl
      · rw [if_neg ht] at h
        cases h
        rw [(rebuild_df_ok_fields _ _ hdf).2.2.1, add_loop_flag]
        exact hf

/-- C2 amended: the duplicate-tolerant flag is set by a call of
add_configurations exactly when the while loop exits having used all
max_try_limit rounds (num_tries equal to max_try_limit) or the flag
was already set; this happens regardless of whether a deficit remains,
so a call that fills its full request exactly on the last allowed
round still sets the flag. Once true the flag is never reset. -/
theorem flag_iff_rounds_exhausted (fuel : Nat) (m : Manager) (n limit : Nat)
    (m' : Manager) (h : add_configurations (fuel + 1) m n limit = Except.ok m') :
    m'.all_unique_configurations_added = true ↔
      (m.all_unique_configurations_added = true ∨ (add_loop m n 0 limit).2.2 = 0) := by
  simp only [add_configurations] at h
  rcases hdf : rebuild_df (add_loop m n 0 limit).1 with e | m2 <;> simp only [hdf] at h
  · cases h
  · by_cases ht : (add_loop m n 0 limit).2.2 = 0
    · rw [if_pos ht] at h
      have hres := add_configurations_flag_monotone fuel _ _ _ _ h rfl
      simp [hres, ht]
    · rw [if_neg ht] at h
      cases h
      rw [(rebuild_df_ok_fields _ _ hdf).2.2.1, add_loop_flag]
      simp [ht]

/-- Witness for the amended C2 theorem at a concrete call. -/
theorem flag_iff_rounds_exhausted_witness :
    ∃ m', add_configurations 1 (mk_manager [] (fun _ => [])) 0 100 = Except.ok m' ∧
      (m'.all_unique_configurations_added = true ↔
        ((mk_manager [] (fun _ => [])).all_unique_configurations_added = true ∨
          (add_loop (mk_manager [] (fun _ => [])) 0 0 100).2.2 = 0)) :=
  ⟨_, rfl, flag_iff_rounds_exhausted 0 _ 0 100 _ rfl⟩

theorem mem_set_insert_self (t : Config) (s : List Config) : t ∈ set_insert t s := by
  unfold set_insert
  split
  · assumption
  · exact List.mem_append_right _ (List.mem_singleton.2 rfl)

theorem mem_set_insert_of_mem (t x : Config) (s : List Config) (h : x ∈ s) :
    x ∈ set_insert t s := by
  unfold set_insert
  split
  · exact h
  · exact List.mem_append_left _ h

theorem accept_one_cases (mk : Manager × Nat) (c : Config) :
    (accept_one mk c = mk ∧ config_tuple c ∈ mk.1.configurations_set ∧
      mk.1.all_unique_configurations_added = false) ∨
    (accept_one mk c =
        ({ mk.1 with configurations := mk.1.configurations ++ [c],
                     configurations_set := set_insert (config_tuple c) mk.1.configurations_set },
          mk.2 + 1) ∧
      (config_tuple c ∉ mk.1.configurations_set ∨
        mk.1.all_unique_configurations_added = true)) := by
  simp only [accept_one]
  split
  · right
    exact ⟨rfl, by assumption⟩
  · left
    rename_i hneg
    push_neg at hneg
    refine ⟨rfl, hneg.1, ?_⟩
    cases hb : mk.1.all_unique_configurations_added
    · rfl
    · exact absurd hb hneg.2

theorem accept_one_dedup (m : Manager) (k : Nat) (c : Config)
    (hflag : m.all_unique_configurations_added = false) (h : dedup_inv m) :
    dedup_inv (accept_one (m, k) c).1 := by
  rcases accept_one_cases (m, k) c with ⟨heq, _, _⟩ | ⟨heq, hcond⟩
  · rw [heq]
    exact h
  · have hnot : config_tuple c ∉ m.configurations_set := by
      rcases hcond with h1 | h1
      · exact h1
      · rw [hflag] at h1
        cases h1
    rw [heq]
    constructor
    · simp only [List.map_append, List.map_cons, List.map_nil]
      rw [List.nodup_append]
      refine ⟨h.1, List.nodup_singleton _, ?_⟩
      intro a ha hb
      rw [List.mem_singleton] at hb
      subst hb
      rcases List.mem_map.1 ha with ⟨x, hx, hxa⟩
      exact hnot (hxa ▸ h.2 x hx)
    · intro x hx
      rcases List.mem_append.1 hx with hx1 | hx1
      · exact mem_set_insert_of_mem _ _ _ (h.2 x hx1)
      · rw [List.mem_singleton] at hx1
        subst hx1
        exact mem_set_insert_self _ _

theorem accept_round_dedup :
    ∀ (cfgs : List Config) (m : Manager) (k : Nat),
      m.all_unique_configurations_added = false → dedup_inv m →
      dedup_inv (accept_round m cfgs k).1
  | [], m, k, _, h => h
  | c :: t, m, k, hflag, h => by
    have hstep : accept_round m (c :: t) k =
        accept_round (accept_one (m, k) c).1 t (accept_one (m, k) c).2 := rfl
    rw [hstep]
    exact accept_round_dedup t _ _
      ((accept_one_flag (m, k) c).trans hflag)
      (accept_one_dedup m k c hflag h)

theorem add_loop_dedup :
    ∀ (t : Nat) (m : Manager) (target k : Nat),
      m.all_unique_configurations_added = false → dedup_inv m →
      dedup_inv (add_loop m target k t).1
  | 0, m, target, k, _, h => h
  | Nat.succ t, m, target, k, hflag, h => by
    rw [add_loop]
    by_cases hk : k < target
    · rw [if_pos hk]
      exact add_loop_dedup t _ _ _
        ((accept_round_flag _ _ _).trans hflag)
        (accept_round_dedup _ _ _ hflag h)
    · rw [if_neg hk]
      exact h

/-- C1 amended: the dedup invariant is kept by add_configurations
whenever the flag is still false afterwards, and set_configuration
does take part in the dedup-set bookkeeping (the canonical tuple is
recorded); but set_configuration appends the configuration to the
pool unconditionally, so setting an already-present configuration does
create a second id with the same canonical tuple (see the
counterexample). -/
theorem add_keeps_dedup_set_appends (fuel : Nat) (m : Manager) (n limit : Nat)
    (m1 : Manager) (hd : dedup_inv m)
    (h : add_configurations fuel m n limit = Except.ok m1)
    (hflag : m1.all_unique_configurations_added = false) :
    (m1.configurations.map config_tuple).Nodup ∧
    (∀ c m2, set_configuration m1 c = Except.ok m2 →
      m2.configurations = m1.configurations ++ [c] ∧
      config_tuple c ∈ m2.configurations_set) := by
  constructor
  · cases fuel with
    | zero => cases h
    | succ fuel =>
      simp only [add_configurations] at h
      rcases hdf : rebuild_df (add_loop m n 0 limit).1 with e | m2 <;> simp only [hdf] at h
      · cases h
      · by_cases ht : (add_loop m n 0 limit).2.2 = 0
        · rw [if_pos ht] at h
          have := add_configurations_flag_monotone fuel _ _ _ _ h rfl
          rw [this] at hflag
          cases hflag
        · rw [if_neg ht] at h
          cases h
          have hfields := rebuild_df_ok_fields _ _ hdf
          have hfm : m.all_unique_configurations_added = false := by
            have h1 := hfields.2.2.1
            rw [add_loop_flag] at h1
            rw [← h1]
            exact hflag
          have := add_loop_dedup limit m n 0 hfm hd
          rw [hfields.1]
          exact this.1
  · intro c m2 hset
    have hfields := rebuild_df_ok_fields _ _ hset
    constructor
    · exact hfields.1
    · rw [hfields.2.1]
      exact mem_set_insert_self _ _

/-- Witness for the amended C1 theorem: one sampled configuration,
pool tuples distinct afterwards, and a set_configuration call records
its tuple in the dedup set while appending to the pool. -/
theorem add_keeps_dedup_set_appends_witness :
    ∃ m1, add_configurations 2 (mk_manager ["x"] (fun _ => xcfg 0)) 1 100 = Except.ok m1 ∧
      (m1.configurations.map config_tuple).Nodup ∧
      ∃ m2, set_configuration m1 (xcfg 1) = Except.ok m2 ∧
        m2.configurations = m1.configurations ++ [xcfg 1] ∧
        config_tuple (xcfg 1) ∈ m2.configurations_set := by
  have hd : dedup_inv (mk_manager ["x"] (fun _ => xcfg 0)) :=
    ⟨List.nodup_nil, by intro c hc; cases hc⟩
  have hmain := add_keeps_dedup_set_appends 2 (mk_manager ["x"] (fun _ => xcfg 0))
    1 100 _ hd rfl rfl
  exact ⟨_, rfl, hmain.1, _, rfl, hmain.2 (xcfg 1) _ rfl⟩

theorem generate_length (m : Manager) (n : Nat) :
    (generate_configurations m n).2.length = n := by
  simp [generate_configurations]

theorem generate_mem (m : Manager) (n : Nat) (c : Config)
    (h : c ∈ (generate_configurations m n).2) : ∃ i, c = m.sampler i := by
  simp only [generate_configurations, List.mem_map, List.mem_range] at h
  rcases h with ⟨i, _, hi⟩
  exact ⟨m.sample_idx + i, hi.symm⟩

theorem generate_fields (m : Manager) (n : Nat) :
    (generate_configurations m n).1.configurations = m.configurations ∧
    (generate_configurations m n).1.configurations_set = m.configurations_set ∧
    (generate_configurations m n).1.sampler = m.sampler ∧
    (generate_configurations m n).1.configuration_names = m.configuration_names ∧
    (generate_configurations m n).1.all_unique_configurations_added =
      m.all_unique_configurations_added :=
  ⟨rfl, rfl, rfl, rfl, rfl⟩

theorem accept_one_names (mk : Manager × Nat) (c : Config) :
    (accept_one mk c).1.configuration_names = mk.1.configuration_names := by
  simp only [accept_one]
  split <;> rfl

theorem accept_one_sampler (mk : Manager × Nat) (c : Config) :
    (accept_one mk c).1.sampler = mk.1.sampler := by
  simp only [accept_one]
  split <;> rfl

theorem accept_round_names :
    ∀ (cfgs : List Config) (m : Manager) (k : Nat),
      (accept_round m cfgs k).1.configuration_names = m.configuration_names
  | [], m, k => rfl
  | c :: t, m, k => by
    have hstep : accept_round m (c :: t) k =
        accept_round (accept_one (m, k) c).1 t (accept_one (m, k) c).2 := rfl
    rw [hstep, accept_round_names t _ _, accept_one_names]

theorem accept_round_sampler :
    ∀ (cfgs : List Config) (m : Manager) (k : Nat),
      (accept_round m cfgs k).1.sampler = m.sampler
  | [], m, k => rfl
  | c :: t, m, k => by
    have hstep : accept_round m (c :: t) k =
        accept_round (accept_one (m, k) c).1 t (accept_one (m, k) c).2 := rfl
    rw [hstep, accept_round_sampler t _ _, accept_one_sampler]

theorem add_loop_names :
    ∀ (t : Nat) (m : Manager) (target k : Nat),
      (add_loop m target k t).1.configuration_names = m.configuration_names
  | 0, m, target, k => rfl
  | Nat.succ t, m, target, k => by
    rw [add_loop]
    by_cases hk : k < target
    · rw [if_pos hk, add_loop_names t _ _ _, accept_round_names]
      rfl
    · rw [if_neg hk]

theorem add_loop_sampler :
    ∀ (t : Nat) (m : Manager) (target k : Nat),
      (add_loop m target k t).1.sampler = m.sampler
  | 0, m, target, k => rfl
  | Nat.succ t, m, target, k => by
    rw [add_loop]
    by_cases hk : k < target
    · rw [if_pos hk, add_loop_sampler t _ _ _, accept_round_sampler]
      rfl
    · rw [if_neg hk]

theorem accept_one_subset_len (m : Manager) (k : Nat) (c : Config)
    (allowed : List Config) (hm : ∀ x ∈ m.configurations, x ∈ allowed)
    (hc : c ∈ allowed) :
    (∀ x ∈ (accept_one (m, k) c).1.configurations, x ∈ allowed) ∧
    (accept_one (m, k) c).1.configurations.length + k =
      m.configurations.length + (accept_one (m, k) c).2 := by
  rcases accept_one_cases (m, k) c with ⟨heq, _, _⟩ | ⟨heq, _⟩
  · rw [heq]
    exact ⟨hm, rfl⟩
  · rw [heq]
    constructor
    · intro x hx
      rcases List.mem_append.1 hx with hx1 | hx1
      · exact hm x hx1
      · rw [List.mem_singleton] at hx1
        subst hx1
        exact hc
    · simp only [List.length_append, List.length_singleton]
      omega

theorem accept_round_subset_len :
    ∀ (cfgs : List Config) (m : Manager) (k : Nat) (allowed : List Config),
      (∀ x ∈ m.configurations, x ∈ allowed) → (∀ x ∈ cfgs, x ∈ allowed) →
      (∀ x ∈ (accept_round m cfgs k).1.configurations, x ∈ allowed) ∧
      (accept_round m cfgs k).1.configurations.length + k =
        m.configurations.length + (accept_round m cfgs k).2
  | [], m, k, allowed, hm, _ => ⟨hm, rfl⟩
  | c :: t, m, k, allowed, hm, hcf => by
    have hstep : accept_round m (c :: t) k =
        accept_round (accept_one (m, k) c).1 t (accept_one (m, k) c).2 := rfl
    have h1 := accept_one_subset_len m k c allowed hm (hcf c (List.mem_cons_self c t))
    have h2 := accept_round_subset_len t (accept_one (m, k) c).1 (accept_one (m, k) c).2
      allowed h1.1 (fun x hx => hcf x (List.mem_cons_of_mem c hx))
    rw [hstep]
    exact ⟨h2.1, by omega⟩

theorem add_loop_subset_len :
    ∀ (t : Nat) (m : Manager) (target k : Nat) (allowed : List Config),
      (∀ i, m.sampler i ∈ allowed) → (∀ x ∈ m.configurations, x ∈ allowed) →
      (∀ x ∈ (add_loop m target k t).1.configurations, x ∈ allowed) ∧
      (add_loop m target k t).1.configurations.length + k =
        m.configurations.length + (add_loop m target k t).2.1
  | 0, m, target, k, allowed, _, hm => ⟨hm, rfl⟩
  | Nat.succ t, m, target, k, allowed, hs, hm => by
    rw [add_loop]
    by_cases hk : k < target
    · rw [if_pos hk]
      dsimp only
      have hgen : ∀ x ∈ (generate_configurations m (target - k)).2, x ∈ allowed := by
        intro x hx
        rcases generate_mem _ _ _ hx with ⟨i, hi⟩
        rw [hi]
        exact hs i
      have h1 := accept_round_subset_len (generate_configurations m (target - k)).2
        (generate_configurations m (target - k)).1 k allowed hm hgen
      have hsamp : ∀ i,
          (accept_round (generate_configurations m (target - k)).1
            (generate_configurations m (target - k)).2 k).1.sampler i ∈ allowed := by
        intro i
        rw [accept_round_sampler]
        exact hs i
      have h2 := add_loop_subset_len t
        (accept_round (generate_configurations m (target - k)).1
          (generate_configurations m (target - k)).2 k).1 target
        (accept_round (generate_configurations m (target - k)).1
          (generate_configurations m (target - k)).2 k).2 allowed hsamp h1.1
      have hgen_len : (generate_configurations m (target - k)).1.configurations.length =
        m.configurations.length := rfl
      have h12 := h1.2
      have h22 := h2.2
      exact ⟨h2.1, by omega⟩
    · rw [if_neg hk]
      exact ⟨hm, rfl⟩

theorem add_loop_exit :
    ∀ (t : Nat) (m : Manager) (target k : Nat),
      (add_loop m target k t).2.2 ≠ 0 → target ≤ (add_loop m target k t).2.1
  | 0, m, target, k, h => absurd rfl h
  | Nat.succ t, m, target, k, h => by
    rw [add_loop] at h ⊢
    by_cases hk : k < target
    · rw [if_pos hk] at h ⊢
      exact add_loop_exit t _ _ _ h
    · rw [if_neg hk] at h ⊢
      exact Nat.le_of_not_lt hk

theorem pool_length_le_allowed (m : Manager) (allowed : List Config)
    (hd : dedup_inv m) (hsub : ∀ x ∈ m.configurations, x ∈ allowed) :
    m.configurations.length ≤ allowed.length := by
  have h1 : (m.configurations.map config_tuple).length =
      (m.configurations.map config_tuple).toFinset.card :=
    (List.toFinset_card_of_nodup hd.1).symm
  have h2 : (m.configurations.map config_tuple).toFinset ⊆
      (allowed.map config_tuple).toFinset := by
    intro x hx
    rw [List.mem_toFinset] at hx ⊢
    rcases List.mem_map.1 hx with ⟨c, hc, hcx⟩
    exact List.mem_map.2 ⟨c, hsub c hc, hcx⟩
  have h3 := Finset.card_le_card h2
  have h4 : (allowed.map config_tuple).toFinset.card ≤ (allowed.map config_tuple).length :=
    List.toFinset_card_le _
  calc m.configurations.length
      = (m.configurations.map config_tuple).length := (List.length_map _ _).symm
    _ = (m.configurations.map config_tuple).toFinset.card := h1
    _ ≤ (allowed.map config_tuple).toFinset.card := h3
    _ ≤ (allowed.map config_tuple).length := h4
    _ = allowed.length := List.length_map _ _

theorem accept_one_pool_nonempty (mk : Manager × Nat) (c : Config)
    (h : mk.1.configurations ≠ []) : (accept_one mk c).1.configurations ≠ [] := by
  rcases accept_one_cases mk c with ⟨heq, _, _⟩ | ⟨heq, _⟩
  · rw [heq]
    exact h
  · rw [heq]
    simp

theorem accept_one_from_empty (m : Manager) (k : Nat) (c : Config)
    (hset : m.configurations_set = []) :
    (accept_one (m, k) c).1.configurations ≠ [] := by
  rcases accept_one_cases (m, k) c with ⟨_, hmem, _⟩ | ⟨heq, _⟩
  · rw [hset] at hmem
    cases hmem
  · rw [heq]
    simp

theorem accept_round_pool_nonempty :
    ∀ (cfgs : List Config) (m : Manager) (k : Nat),
      m.configurations ≠ [] → (accept_round m cfgs k).1.configurations ≠ []
  | [], m, k, h => h
  | c :: t, m, k, h => by
    have hstep : accept_round m (c :: t) k =
        accept_round (accept_one (m, k) c).1 t (accept_one (m, k) c).2 := rfl
    rw [hstep]
    exact accept_round_pool_nonempty t _ _ (accept_one_pool_nonempty (m, k) c h)

theorem accept_round_from_empty (cfgs : List Config) (m : Manager) (k : Nat)
    (hne : cfgs ≠ []) (hset : m.configurations_set = []) :
    (accept_round m cfgs k).1.configurations ≠ [] := by
  rcases cfgs with _ | ⟨c, t⟩
  · exact absurd rfl hne
  · have hstep : accept_round m (c :: t) k =
        accept_round (accept_one (m, k) c).1 t (accept_one (m, k) c).2 := rfl
    rw [hstep]
    exact accept_round_pool_nonempty t _ _ (accept_one_from_empty m k c hset)

theorem add_loop_pool_nonempty :
    ∀ (t : Nat) (m : Manager) (target k : Nat),
      m.configurations ≠ [] → (add_loop m target k t).1.configurations ≠ []
  | 0, m, target, k, h => h
  | Nat.succ t, m, target, k, h => by
    rw [add_loop]
    by_cases hk : k < target
    · rw [if_pos hk]
      dsimp only
      exact add_loop_pool_nonempty t _ _ _
        (accept_round_pool_nonempty _ _ _ h)
    · rw [if_neg hk]
      exact h

theorem add_loop_from_empty (t : Nat) (m : Manager) (target : Nat)
    (hset : m.configurations_set = []) (htarget : 0 < target) :
    (add_loop m target 0 (t + 1)).1.configurations ≠ [] := by
  rw [add_loop]
  rw [if_pos htarget]
  dsimp only
  apply add_loop_pool_nonempty
  have hset2 : (generate_configurations m (target - 0)).1.configurations_set = [] := hset
  apply accept_round_from_empty _ _ _ ?_ hset2
  intro hnil
  have hg := generate_length m (target - 0)
  rw [hnil] at hg
  simp at hg
  omega

theorem accept_one_true (m : Manager) (k : Nat) (c : Config)
    (hf : m.all_unique_configurations_added = true) :
    (accept_one (m, k) c).1.configurations = m.configurations ++ [c] ∧
    (accept_one (m, k) c).2 = k + 1 := by
  rcases accept_one_cases (m, k) c with ⟨_, _, hfl⟩ | ⟨heq, _⟩
  · rw [hf] at hfl
    cases hfl
  · rw [heq]
    exact ⟨rfl, rfl⟩

theorem accept_round_true :
    ∀ (cfgs : List Config) (m : Manager) (k : Nat),
      m.all_unique_configurations_added = true →
      (accept_round m cfgs k).1.configurations = m.configurations ++ cfgs ∧
      (accept_round m cfgs k).2 = k + cfgs.length
  | [], m, k, _ => ⟨(List.append_nil _).symm, rfl⟩
  | c :: t, m, k, hf => by
    have hstep : accept_round m (c :: t) k =
        accept_round (accept_one (m, k) c).1 t (accept_one (m, k) c).2 := rfl
    have h1 := accept_one_true m k c hf
    have hf1 : (accept_one (m, k) c).1.all_unique_configurations_added = true :=
      (accept_one_flag (m, k) c).trans hf
    have h2 := accept_round_true t (accept_one (m, k) c).1 (accept_one (m, k) c).2 hf1
    rw [hstep]
    constructor
    · rw [h2.1, h1.1, List.append_assoc, List.singleton_append]
    · rw [h2.2, h1.2, List.length_cons]
      omega

theorem add_loop_true_spec (m : Manager) (d : Nat) (t : Nat)
    (hf : m.all_unique_configurations_added = true) (hd : 0 < d) (ht : 2 ≤ t) :
    (add_loop m d 0 t).1.configurations =
      m.configurations ++ (generate_configurations m d).2 ∧
    (add_loop m d 0 t).2.1 = d ∧
    (add_loop m d 0 t).2.2 ≠ 0 := by
  obtain ⟨t2, rfl⟩ : ∃ t2, t = t2 + 2 := ⟨t - 2, by omega⟩
  rw [add_loop]
  rw [if_pos (show 0 < d by omega)]
  dsimp only
  have hround := accept_round_true (generate_configurations m (d - 0)).2
    (generate_configurations m (d - 0)).1 0 hf
  have hlen : (generate_configurations m (d - 0)).2.length = d := by
    rw [generate_length]
    omega
  have hfull : ¬ (accept_round (generate_configurations m (d - 0)).1
      (generate_configurations m (d - 0)).2 0).2 < d := by
    rw [hround.2, hlen]
    omega
  rw [add_loop]
  rw [if_neg hfull]
  dsimp only
  refine ⟨?_, ?_, ?_⟩
  · rw [hround.1]
    rfl
  · rw [hround.2, hlen]
    omega
  · simp

theorem rebuild_df_ok_of_keys (m : Manager) (hne : m.configurations ≠ [])
    (hkeys : ∀ c ∈ m.configurations, ∀ k ∈ m.configuration_names, k ∈ c.map Prod.fst) :
    ∃ m2, rebuild_df m = Except.ok m2 := by
  simp only [rebuild_df]
  rw [if_pos]
  · exact ⟨_, rfl⟩
  · rw [List.all_eq_true]
    intro k hk
    rcases List.exists_mem_of_ne_nil m.configurations hne with ⟨c0, hc0⟩
    have hkc : k ∈ c0.map Prod.fst := hkeys c0 hc0 k hk
    have hmem : k ∈ df_columns m.configurations := by
      unfold df_columns
      rw [List.mem_dedup, List.mem_flatten]
      exact ⟨c0.map Prod.fst, List.mem_map.2 ⟨c0, hc0, rfl⟩, hkc⟩
    simpa [List.elem_iff] using hmem

theorem add_configurations_step (fuel : Nat) (m : Manager) (n limit : Nat)
    (m2 : Manager) (hdf : rebuild_df (add_loop m n 0 limit).1 = Except.ok m2)
    (ht : (add_loop m n 0 limit).2.2 = 0) :
    add_configurations (fuel + 1) m n limit =
      add_configurations fuel { m2 with all_unique_configurations_added := true }
        (n - (add_loop m n 0 limit).2.1) 100 := by
  simp only [add_configurations]
  simp only [hdf]
  rw [if_pos ht]

theorem add_configurations_stop (fuel : Nat) (m : Manager) (n limit : Nat)
    (m2 : Manager) (hdf : rebuild_df (add_loop m n 0 limit).1 = Except.ok m2)
    (ht : (add_loop m n 0 limit).2.2 ≠ 0) :
    add_configurations (fuel + 1) m n limit = Except.ok m2 := by
  simp only [add_configurations]
  simp only [hdf]
  rw [if_neg ht]

/-- C4: for a search space with at most K distinct configurations
(every sampler draw lies in a list allowed of length K, each member
carrying all hyperparameter names as keys), a request for n greater
than K unique configurations from a fresh manager returns within
recursion depth 2 (the degrade-and-refill recursion does not run
forever), switches the manager to duplicate-tolerant mode, and leaves
a final pool of exactly n configurations. -/
theorem degrade_fills_request (names : List String) (sampler : Nat → Config)
    (allowed : List Config) (n : Nat)
    (hs : ∀ i, sampler i ∈ allowed)
    (hkeys : ∀ c ∈ allowed, ∀ k ∈ names, k ∈ c.map Prod.fst)
    (hlt : allowed.length < n) :
    ∃ m, add_configurations 2 (mk_manager names sampler) n 100 = Except.ok m ∧
      m.configurations.length = n ∧
      m.all_unique_configurations_added = true := by
  have hd0 : dedup_inv (mk_manager names sampler) :=
    ⟨List.nodup_nil, by intro c hc; cases hc⟩
  have hsub0 : ∀ x ∈ (mk_manager names sampler).configurations, x ∈ allowed := by
    intro x hx
    cases hx
  have hloop := add_loop_subset_len 100 (mk_manager names sampler) n 0 allowed hs hsub0
  have hdedup := add_loop_dedup 100 (mk_manager names sampler) n 0 rfl hd0
  have hbound := pool_length_le_allowed
    (add_loop (mk_manager names sampler) n 0 100).1 allowed hdedup hloop.1
  have h00 : (mk_manager names sampler).configurations.length = 0 := rfl
  have hlen_eq : (add_loop (mk_manager names sampler) n 0 100).1.configurations.length =
      (add_loop (mk_manager names sampler) n 0 100).2.1 := by
    have h2 := hloop.2
    omega
  have hexit : (add_loop (mk_manager names sampler) n 0 100).2.2 = 0 := by
    by_contra hne
    have := add_loop_exit 100 (mk_manager names sampler) n 0 hne
    omega
  have hne_pool : (add_loop (mk_manager names sampler) n 0 100).1.configurations ≠ [] := by
    have h99 : (100 : Nat) = 99 + 1 := rfl
    rw [h99]
    exact add_loop_from_empty 99 (mk_manager names sampler) n rfl (by omega)
  have hkeys_pool : ∀ c ∈ (add_loop (mk_manager names sampler) n 0 100).1.configurations,
      ∀ k ∈ (add_loop (mk_manager names sampler) n 0 100).1.configuration_names,
        k ∈ c.map Prod.fst := by
    intro c hc k hk
    rw [add_loop_names] at hk
    exact hkeys c (hloop.1 c hc) k hk
  obtain ⟨m2, hdf⟩ := rebuild_df_ok_of_keys _ hne_pool hkeys_pool
  have hfields2 := rebuild_df_ok_fields _ _ hdf
  have hd_pos : 0 < n - (add_loop (mk_manager names sampler) n 0 100).2.1 := by
    omega
  have hflag3 : ({ m2 with all_unique_configurations_added := true
      } : Manager).all_unique_configurations_added = true := rfl
  have hspec2 := add_loop_true_spec { m2 with all_unique_configurations_added := true }
    (n - (add_loop (mk_manager names sampler) n 0 100).2.1) 100 hflag3 hd_pos (by omega)
  have hpool3 : ({ m2 with all_unique_configurations_added := true
      } : Manager).configurations = (add_loop (mk_manager names sampler) n 0 100).1.configurations := by
    have := hfields2.1
    exact this
  have hsamp3 : ({ m2 with all_unique_configurations_added := true } : Manager).sampler = sampler := by
    have h1 := hfields2.2.2.2.2.1
    rw [add_loop_sampler] at h1
    exact h1
  have hnames3 : ({ m2 with all_unique_configurations_added := true
      } : Manager).configuration_names = names := by
    have h1 := hfields2.2.2.2.1
    rw [add_loop_names] at h1
    exact h1
  have hne2 : (add_loop { m2 with all_unique_configurations_added := true }
      (n - (add_loop (mk_manager names sampler) n 0 100).2.1) 0 100).1.configurations ≠ [] := by
    rw [hspec2.1, hpool3]
    intro hnil
    exact hne_pool (List.append_eq_nil.1 hnil).1
  have hkeys2 : ∀ c ∈ (add_loop { m2 with all_unique_configurations_added := true }
      (n - (add_loop (mk_manager names sampler) n 0 100).2.1) 0 100).1.configurations,
      ∀ k ∈ (add_loop { m2 with all_unique_configurations_added := true }
        (n - (add_loop (mk_manager names sampler) n 0 100).2.1) 0 100).1.configuration_names,
        k ∈ c.map Prod.fst := by
    intro c hc k hk
    rw [add_loop_names, hnames3] at hk
    rw [hspec2.1] at hc
    rcases List.mem_append.1 hc with hc | hc
    · rw [hpool3] at hc
      exact hkeys c (hloop.1 c hc) k hk
    · rcases generate_mem _ _ _ hc with ⟨i, hi⟩
      rw [hi, hsamp3]
      exact hkeys (sampler i) (hs i) k hk
  obtain ⟨m4, hdf4⟩ := rebuild_df_ok_of_keys _ hne2 hkeys2
  have hfields4 := rebuild_df_ok_fields _ _ hdf4
  refine ⟨m4, ?_, ?_, ?_⟩
  · exact (add_configurations_step 1 (mk_manager names sampler) n 100 m2 hdf hexit).trans
      (add_configurations_stop 0 { m2 with all_unique_configurations_added := true }
        (n - (add_loop (mk_manager names sampler) n 0 100).2.1) 100 m4 hdf4 hspec2.2.2)
  · have hlen4 : m4.configurations.length =
        ({ m2 with all_unique_configurations_added := true } : Manager).configurations.length +
          (n - (add_loop (mk_manager names sampler) n 0 100).2.1) := by
      rw [hfields4.1, hspec2.1, List.length_append, generate_length]
    have hlen3 : ({ m2 with all_unique_configurations_added := true
        } : Manager).configurations.length =
        (add_loop (mk_manager names sampler) n 0 100).1.configurations.length := by
      rw [hpool3]
    omega
  · rw [hfields4.2.2.1, add_loop_flag]

set_option maxRecDepth 100000 in
/-- Witness for C4 at the scenario of the specification: 2 boolean
hyperparameters (4 distinct combinations), a request for 10, final
pool of 10 with the duplicate-tolerant flag set, of which exactly 4
canonical tuples are distinct (6 entries are duplicates). -/
theorem degrade_fills_request_witness :
    (∃ m, add_configurations 2 (mk_manager ["p", "q"] cyclic_sampler) 10 100 = Except.ok m ∧
      m.configurations.length = 10 ∧ m.all_unique_configurations_added = true) ∧
    (∃ m, add_configurations 2 (mk_manager ["p", "q"] cyclic_sampler) 10 100 = Except.ok m ∧
      (m.configurations.map config_tuple).dedup.length = 4) := by
  constructor
  · apply degrade_fills_request ["p", "q"] cyclic_sampler
      [combo false false, combo false true, combo true false, combo true true] 10
    · intro i
      have h4 : i % 4 = 0 ∨ i % 4 = 1 ∨ i % 4 = 2 ∨ i % 4 = 3 := by omega
      unfold cyclic_sampler
      rcases h4 with h | h | h | h <;> rw [h] <;> decide
    · decide
    · decide
  · exact ⟨_, rfl, by decide⟩

theorem run_cache_hit (obj : Config → Nat → Nat → String → ObjResult) (clock : Nat → ℚ)
    (w : Wrapper) (ci : ConfigurationInfo) (e : Nat) (r : List Record)
    (h : alist_get w.trial_results (ci.configuration_id, e) = some r) :
    run obj clock w ci e = (Except.ok r, w) := by
  simp only [run, h]

theorem run_miss_eq (obj : Config → Nat → Nat → String → ObjResult) (clock : Nat → ℚ)
    (w : Wrapper) (ci : ConfigurationInfo) (e : Nat)
    (hmiss : alist_get w.trial_results (ci.configuration_id, e) = none) :
    run obj clock w ci e =
      (match verify_configuration_results (run_result_list obj w ci e) with
       | Except.error msg => (Except.error msg, run_touched w ci.configuration_id)
       | Except.ok _ =>
         if (run_result_list obj w ci e).length = 0 then
           (Except.error "ZeroDivisionError", run_touched w ci.configuration_id)
         else (Except.ok (run_records obj clock w ci e), run_done obj clock w ci e)) := by
  simp only [run, hmiss, run_result_list, run_touched, run_records, run_done]

theorem alist_get_map_set {α β : Type} [DecidableEq α] :
    ∀ (l : List (α × β)) (k : α) (v : β),
      l.any (fun p => p.1 = k) = true →
      alist_get (l.map (fun p => if p.1 = k then (k, v) else p)) k = some v
  | [], k, v, h => by simp at h
  | p :: t, k, v, h => by
    simp only [List.map_cons]
    by_cases hp : p.1 = k
    · rw [if_pos hp]
      simp [alist_get]
    · rw [if_neg hp]
      have ht : t.any (fun p => p.1 = k) = true := by
        simp only [List.any_cons, hp] at h
        simpa using h
      simp only [alist_get, if_neg hp]
      exact alist_get_map_set t k v ht

theorem alist_get_append_single {α β : Type} [DecidableEq α] :
    ∀ (l : List (α × β)) (k : α) (v : β),
      alist_get l k = none → alist_get (l ++ [(k, v)]) k = some v
  | [], k, v, _ => by simp [alist_get]
  | p :: t, k, v, h => by
    simp only [alist_get] at h ⊢
    by_cases hp : p.1 = k
    · rw [if_pos hp] at h
      cases h
    · rw [if_neg hp] at h ⊢
      exact alist_get_append_single t k v h

theorem alist_get_none_of_not_any {α β : Type} [DecidableEq α] :
    ∀ (l : List (α × β)) (k : α),
      l.any (fun p => p.1 = k) = false → alist_get l k = none
  | [], k, _ => rfl
  | p :: t, k, h => by
    simp only [List.any_cons, Bool.or_eq_false_iff] at h
    have hp : ¬ p.1 = k := by
      intro hk
      rw [hk] at h
      simpa using h.1
    simp only [alist_get, if_neg hp]
    exact alist_get_none_of_not_any t k (by simpa using h.2)

theorem alist_get_dict_set_self {α β : Type} [DecidableEq α]
    (l : List (α × β)) (k : α) (v : β) :
    alist_get (dict_set l k v) k = some v := by
  unfold dict_set
  split
  · exact alist_get_map_set l k v (by assumption)
  · rename_i hany
    have hany2 : l.any (fun p => p.1 = k) = false := by
      cases hh : l.any (fun p => p.1 = k)
      · rfl
      · exact absurd hh hany
    exact alist_get_append_single l k v (alist_get_none_of_not_any l k hany2)

theorem alist_get_map_set_ne {α β : Type} [DecidableEq α] :
    ∀ (l : List (α × β)) (k k2 : α) (v : β), k2 ≠ k →
      alist_get (l.map (fun p => if p.1 = k then (k, v) else p)) k2 = alist_get l k2
  | [], _, _, _, _ => rfl
  | p :: t, k, k2, v, hne => by
    simp only [List.map_cons]
    by_cases hp : p.1 = k
    · rw [if_pos hp]
      have h1 : ¬ (k = k2) := fun hk => hne hk.symm
      have h2 : ¬ (p.1 = k2) := by
        rw [hp]
        exact h1
      simp only [alist_get, if_neg h1, if_neg h2]
      exact alist_get_map_set_ne t k k2 v hne
    · rw [if_neg hp]
      simp only [alist_get]
      by_cases hp2 : p.1 = k2
      · rw [if_pos hp2, if_pos hp2]
      · rw [if_neg hp2, if_neg hp2]
        exact alist_get_map_set_ne t k k2 v hne

theorem alist_get_append_single_ne {α β : Type} [DecidableEq α] :
    ∀ (l : List (α × β)) (k k2 : α) (v : β), k2 ≠ k →
      alist_get (l ++ [(k, v)]) k2 = alist_get l k2
  | [], k, k2, v, hne => by
    have h1 : ¬ (k = k2) := fun hk => hne hk.symm
    simp only [List.nil_append, alist_get, if_neg h1]
  | p :: t, k, k2, v, hne => by
    simp only [List.cons_append, alist_get]
    by_cases hp2 : p.1 = k2
    · rw [if_pos hp2, if_pos hp2]
    · rw [if_neg hp2, if_neg hp2]
      exact alist_get_append_single_ne t k k2 v hne

theorem alist_get_dict_set_ne {α β : Type} [DecidableEq α]
    (l : List (α × β)) (k k2 : α) (v : β) (hne : k2 ≠ k) :
    alist_get (dict_set l k v) k2 = alist_get l k2 := by
  unfold dict_set
  split
  · exact alist_get_map_set_ne l k k2 v hne
  · exact alist_get_append_single_ne l k k2 v hne

theorem verify_ok_keys :
    ∀ (rs : List Record) (u : Unit),
      verify_configuration_results rs = Except.ok u →
      ∀ r ∈ rs, has_key r "epoch" = true ∧ has_key r "metric" = true
  | [], _, _, r, hr => by cases hr
  | r0 :: t, u, h, r, hr => by
    simp only [verify_configuration_results] at h
    by_cases h1 : has_key r0 "epoch"
    · rw [h1] at h
      simp only [Bool.not_true, Bool.false_eq_true, if_false] at h
      by_cases h2 : has_key r0 "metric"
      · rw [h2] at h
        simp only [Bool.not_true, Bool.false_eq_true, if_false] at h
        rcases List.mem_cons.1 hr with hr0 | hrt
        · subst hr0
          exact ⟨h1, h2⟩
        · exact verify_ok_keys t u h r hrt
      · rw [Bool.not_eq_true] at h2
        rw [h2] at h
        simp at h
    · rw [Bool.not_eq_true] at h1
      rw [h1] at h
      simp at h

theorem run_ok_cached (obj : Config → Nat → Nat → String → ObjResult) (clock : Nat → ℚ)
    (w : Wrapper) (ci : ConfigurationInfo) (e : Nat) (r : List Record) (w1 : Wrapper)
    (h : run obj clock w ci e = (Except.ok r, w1)) :
    alist_get w1.trial_results (ci.configuration_id, e) = some r := by
  cases hc : alist_get w.trial_results (ci.configuration_id, e) with
  | some r0 =>
    rw [run_cache_hit obj clock w ci e r0 hc] at h
    injection h with ha hb
    injection ha with ha
    subst ha
    subst hb
    exact hc
  | none =>
    rw [run_miss_eq obj clock w ci e hc] at h
    rcases hv : verify_configuration_results (run_result_list obj w ci e) with msg | u
    · simp only [hv] at h
      injection h with ha hb
      cases ha
    · simp only [hv] at h
      by_cases hlen : (run_result_list obj w ci e).length = 0
      · rw [if_pos hlen] at h
        injection h with ha hb
        cases ha
      · rw [if_neg hlen] at h
        injection h with ha hb
        injection ha with ha
        subst ha
        rw [← hb]
        show alist_get (dict_set w.trial_results (ci.configuration_id, e)
          (run_records obj clock w ci e)) (ci.configuration_id, e) = _
        rw [alist_get_dict_set_self]

theorem run_preserves_cached (obj : Config → Nat → Nat → String → ObjResult)
    (clock : Nat → ℚ) (w : Wrapper) (ci : ConfigurationInfo) (e : Nat)
    (p : Nat × Nat) (r : List Record)
    (h : alist_get w.trial_results p = some r) :
    alist_get (run obj clock w ci e).2.trial_results p = some r := by
  cases hc : alist_get w.trial_results (ci.configuration_id, e) with
  | some r0 =>
    rw [run_cache_hit obj clock w ci e r0 hc]
    exact h
  | none =>
    rw [run_miss_eq obj clock w ci e hc]
    rcases hv : verify_configuration_results (run_result_list obj w ci e) with msg | u
    · simp only [hv]
      exact h
    · simp only [hv]
      by_cases hlen : (run_result_list obj w ci e).length = 0
      · rw [if_pos hlen]
        exact h
      · rw [if_neg hlen]
        show alist_get (dict_set w.trial_results (ci.configuration_id, e)
          (run_records obj clock w ci e)) p = some r
        have hne : p ≠ (ci.configuration_id, e) := by
          intro hp
          rw [hp, hc] at h
          cases h
        rw [alist_get_dict_set_ne _ _ _ _ hne]
        exact h

theorem start_trial_go_preserves_cached (obj : Config → Nat → Nat → String → ObjResult)
    (clock : Nat → ℚ) :
    ∀ (reqs : List (ConfigurationInfo × Nat)) (acc : List Record) (w : Wrapper)
      (p : Nat × Nat) (r : List Record),
      alist_get w.trial_results p = some r →
      alist_get (start_trial_go obj clock reqs acc w).2.trial_results p = some r
  | [], acc, w, p, r, h => h
  | (ci, e) :: t, acc, w, p, r, h => by
    simp only [start_trial_go]
    rcases hr : run obj clock w ci e with ⟨res, w2⟩
    have hpres := run_preserves_cached obj clock w ci e p r h
    rw [hr] at hpres
    cases res with
    | ok rs =>
      exact start_trial_go_preserves_cached obj clock t (acc ++ rs) w2 p r hpres
    | error err =>
      exact hpres

/-- C5: after a successful run of a (configuration id, epoch) request,
a second run of the same request returns the same records with the
whole wrapper state unchanged (so the objective function is not
invoked again: the invocation counter is unchanged), and the cached
entry for the pair is never overwritten by any later start_trial
batch. -/
theorem trial_cache_idempotent (obj : Config → Nat → Nat → String → ObjResult)
    (clock : Nat → ℚ) (w : Wrapper) (ci : ConfigurationInfo) (e : Nat)
    (r : List Record) (w1 : Wrapper)
    (h : run obj clock w ci e = (Except.ok r, w1)) :
    run obj clock w1 ci e = (Except.ok r, w1) ∧
    (run obj clock w1 ci e).2.obj_calls = w1.obj_calls ∧
    ∀ (cis : List ConfigurationInfo) (es : List Nat),
      alist_get (start_trial obj clock w1 cis es).2.trial_results
        (ci.configuration_id, e) = some r := by
  have hcached := run_ok_cached obj clock w ci e r w1 h
  have hsecond := run_cache_hit obj clock w1 ci e r hcached
  refine ⟨hsecond, by rw [hsecond], ?_⟩
  intro cis es
  exact start_trial_go_preserves_cached obj clock (cis.zip es) [] w1 _ r hcached

/-- Witness for C5: the demo trial runs once, and the second run
returns the identical records with the state untouched, in particular
with the same invocation count. -/
theorem trial_cache_idempotent_witness :
    ∃ r w1, run demo_obj demo_clock demo_wrapper demo_ci 1 = (Except.ok r, w1) ∧
      run demo_obj demo_clock w1 demo_ci 1 = (Except.ok r, w1) ∧
      (run demo_obj demo_clock w1 demo_ci 1).2.obj_calls = w1.obj_calls := by
  refine ⟨_, _, rfl, ?_, ?_⟩
  · exact (trial_cache_idempotent demo_obj demo_clock demo_wrapper demo_ci 1 _ _ rfl).1
  · exact (trial_cache_idempotent demo_obj demo_clock demo_wrapper demo_ci 1 _ _ rfl).2.1

/-- C6: when any record coming back from the objective function for a
non-cached request lacks the epoch key or the metric key, the run
raises immediately: an error is returned, no entry is written to the
trial result cache, the fidelity ledger is untouched, and a
start_trial batch beginning with that request aborts with the error,
returning no records at all, not even those of earlier requests. -/
theorem malformed_result_aborts (obj : Config → Nat → Nat → String → ObjResult)
    (clock : Nat → ℚ) (w : Wrapper) (ci : ConfigurationInfo) (e : Nat)
    (cis : List ConfigurationInfo) (es : List Nat)
    (hmiss : alist_get w.trial_results (ci.configuration_id, e) = none)
    (hbad : ∃ entry ∈ run_result_list obj w ci e,
      has_key entry "epoch" = false ∨ has_key entry "metric" = false) :
    (∃ msg w2, run obj clock w ci e = (Except.error msg, w2) ∧
      w2.trial_results = w.trial_results ∧
      w2.previous_fidelities = w.previous_fidelities) ∧
    (∃ msg w2, start_trial obj clock w (ci :: cis) (e :: es) = (Except.error msg, w2) ∧
      w2.trial_results = w.trial_results) := by
  have hrun : ∃ msg, run obj clock w ci e =
      (Except.error msg, run_touched w ci.configuration_id) := by
    rw [run_miss_eq obj clock w ci e hmiss]
    rcases hv : verify_configuration_results (run_result_list obj w ci e) with msg | u
    · exact ⟨msg, by simp only [hv]⟩
    · rcases hbad with ⟨entry, hentry, hbadk⟩
      have hkeys := verify_ok_keys _ u hv entry hentry
      rcases hbadk with hb | hb
      · rw [hkeys.1] at hb
        cases hb
      · rw [hkeys.2] at hb
        cases hb
  rcases hrun with ⟨msg, hmsg⟩
  constructor
  · exact ⟨msg, run_touched w ci.configuration_id, hmsg, rfl, rfl⟩
  · refine ⟨msg, run_touched w ci.configuration_id, ?_, rfl⟩
    show start_trial_go obj clock ((ci, e) :: cis.zip es) [] w =
      (Except.error msg, run_touched w ci.configuration_id)
    simp only [start_trial_go, hmsg]

/-- Witness for C6: an objective function whose record lacks the
metric key makes the run return the error and leaves the cache
empty. -/
theorem malformed_result_aborts_witness :
    ∃ msg w2, run demo_bad_obj demo_clock demo_wrapper demo_ci 1 = (Except.error msg, w2) ∧
      w2.trial_results = demo_wrapper.trial_results := by
  obtain ⟨⟨msg, w2, h1, h2, _⟩, _⟩ :=
    malformed_result_aborts demo_bad_obj demo_clock demo_wrapper demo_ci 1 [] []
      rfl (by decide)
  exact ⟨msg, w2, h1, h2⟩

theorem run_prev_preserved (obj : Config → Nat → Nat → String → ObjResult)
    (clock : Nat → ℚ) (w : Wrapper) (ci2 : ConfigurationInfo) (e2 : Nat)
    (id : Nat) (hne : id ≠ ci2.configuration_id) :
    alist_get (run obj clock w ci2 e2).2.previous_fidelities id =
      alist_get w.previous_fidelities id := by
  cases hc : alist_get w.trial_results (ci2.configuration_id, e2) with
  | some r0 =>
    rw [run_cache_hit obj clock w ci2 e2 r0 hc]
  | none =>
    rw [run_miss_eq obj clock w ci2 e2 hc]
    rcases hv : verify_configuration_results (run_result_list obj w ci2 e2) with msg | u
    · simp only [hv]
      rfl
    · simp only [hv]
      by_cases hlen : (run_result_list obj w ci2 e2).length = 0
      · rw [if_pos hlen]
        rfl
      · rw [if_neg hlen]
        show alist_get (dict_set w.previous_fidelities ci2.configuration_id e2) id = _
        exact alist_get_dict_set_ne _ _ _ _ hne

/-- C7: after a successful non-cached run of (id, e), the fidelity
ledger maps id to e: the previous-epoch lookup yields e, stays e
across later runs for other configuration ids and across a repeat of
the same (id, e) request (a cache hit that changes nothing), and a
lookup for an id never evaluated yields 0. -/
theorem fidelity_ledger_tracks (obj : Config → Nat → Nat → String → ObjResult)
    (clock : Nat → ℚ) (w : Wrapper) (ci : ConfigurationInfo) (e : Nat)
    (r : List Record) (w1 : Wrapper)
    (hmiss : alist_get w.trial_results (ci.configuration_id, e) = none)
    (hrun : run obj clock w ci e = (Except.ok r, w1)) :
    lookup_previous_epoch w1 ci.configuration_id = e ∧
    (∀ (ci2 : ConfigurationInfo) (e2 : Nat),
      ci2.configuration_id ≠ ci.configuration_id →
      lookup_previous_epoch (run obj clock w1 ci2 e2).2 ci.configuration_id = e) ∧
    lookup_previous_epoch (run obj clock w1 ci e).2 ci.configuration_id = e ∧
    (∀ id2, alist_get w.previous_fidelities id2 = none →
      lookup_previous_epoch w id2 = 0) := by
  have h1 : alist_get w1.previous_fidelities ci.configuration_id = some e := by
    have hrun2 := hrun
    rw [run_miss_eq obj clock w ci e hmiss] at hrun2
    rcases hv : verify_configuration_results (run_result_list obj w ci e) with msg | u
    · simp only [hv] at hrun2
      injection hrun2 with ha hb
      cases ha
    · simp only [hv] at hrun2
      by_cases hlen : (run_result_list obj w ci e).length = 0
      · rw [if_pos hlen] at hrun2
        injection hrun2 with ha hb
        cases ha
      · rw [if_neg hlen] at hrun2
        injection hrun2 with ha hb
        rw [← hb]
        show alist_get (dict_set w.previous_fidelities ci.configuration_id e)
          ci.configuration_id = some e
        rw [alist_get_dict_set_self]
  have hlook1 : lookup_previous_epoch w1 ci.configuration_id = e := by
    unfold lookup_previous_epoch
    rw [h1]
    rfl
  refine ⟨hlook1, ?_, ?_, ?_⟩
  · intro ci2 e2 hne
    unfold lookup_previous_epoch
    rw [run_prev_preserved obj clock w1 ci2 e2 ci.configuration_id (Ne.symm hne)]
    rw [h1]
    rfl
  · have hcached := run_ok_cached obj clock w ci e r w1 hrun
    rw [run_cache_hit obj clock w1 ci e r hcached]
    exact hlook1
  · intro id2 hid
    unfold lookup_previous_epoch
    rw [hid]
    rfl

/-- Witness for C7: the demo run of (0, 1) makes the previous-epoch
lookup for configuration 0 yield 1. -/
theorem fidelity_ledger_tracks_witness :
    ∃ r w1, run demo_obj demo_clock demo_wrapper demo_ci 1 = (Except.ok r, w1) ∧
      lookup_previous_epoch w1 demo_ci.configuration_id = 1 := by
  refine ⟨_, _, rfl, ?_⟩
  exact (fidelity_ledger_tracks demo_obj demo_clock demo_wrapper demo_ci 1 _ _ rfl rfl).1

/-- Witness for C8 at the demo wrapper. -/
theorem close_idempotent_witness :
    ∃ w1, wrapper_close demo_wrapper = Except.ok w1 ∧ wrapper_close w1 = Except.ok w1 ∧
      (demo_wrapper.checkpoint_path ∈ demo_wrapper.fs →
        ∀ q ∈ w1.fs, demo_wrapper.checkpoint_path.isPrefixOf q = false) :=
  close_idempotent demo_wrapper
